import Mathlib

/-!
Verification of the yateto expression-tree core against its source.

Shallow embedding of:
  * `yateto/ast/node.py` — the expression-node hierarchy and the DSL folding
    rules embedded in the Python operators (`__mul__`, `__add__`, `__neg__`,
    `__le__`, `_binOp`, `_checkMultipleScalarMults`, `Assign.setChildren`,
    `Add.nonZeroFlops`, `ScalarMultiplication.nonZeroFlops`,
    `LoopOverGEMM.__init__`);
  * `yateto/controlflow/visitor.py` — the `AST2ControlFlow` lowering pass;
  * `yateto/codegen/visitor.py` — the global-variable grouping collection of
    `OptimisedKernelGenerator.generate`.

Python exceptions are modelled with `Except`/`Option`; Python `float` scalar
constants are modelled with `Rat` (the constants compared against, 1.0 and
-1.0, are exact in both representations).  Sparsity patterns are modelled
concretely as lists of non-zero coordinates; the external sparsity engine is
only ever observed through `count_nonzero`.
-/

namespace Yateto

/-- Python exception values.  Only the statically known part of each message is
kept: Python interpolates operand renderings into some messages, which is
elided here (no claim observes the interpolated part). -/
inductive PyErr where
  | valueError (msg : String)
  | nameError (msg : String)
  | indexError
  | assertionError
  | attributeError
deriving DecidableEq, Repr

/-- A sparsity pattern: the list of non-zero coordinates.  The core never
inspects patterns beyond their non-zero count. -/
abbrev Spp := List (List Nat)

/-- `count_nonzero` of the external sparsity-pattern engine. -/
def count_nonzero (s : Spp) : Nat := s.dedup.length

/-- The Tensor collaborator (external to the excerpt).  Only its name is
observed by the embedded code paths; shape, group, sparsity and layout are
queried elsewhere (grouping is modelled separately for the code-generation
collection, which works on base name and group directly). -/
structure Tensor where
  name : String
deriving DecidableEq, Repr

/-- A scalar factor of `ScalarMultiplication`: either a compile-time numeric
constant (Python `float`/`int`, coerced to `float`) or a named runtime
scalar. -/
inductive Scalar where
  | const (value : Rat)
  | runtime (name : String)
deriving DecidableEq, Repr

/-- `ScalarMultiplication._isConstant`. -/
def Scalar.isConstant : Scalar → Bool
  | .const _ => true
  | .runtime _ => false

/-- The expression-node hierarchy of `yateto/ast/node.py`.  Each node carries
its `_eqspp` slot (`None` until sparsity propagation fills it).  The variants
`IndexSum`, `Contraction` and `LoopOverGEMM` take no part in any claim about
this tree (they are lowered by the same generic visitor arm as `Product`);
`LoopOverGEMM` construction is modelled separately below.  Index bookkeeping
(`self.indices`, from the absent `indices.py`) is likewise modelled separately
where a claim needs it. -/
inductive Node where
  | indexedTensor (tensor : Tensor) (indexNames : List String) (eqspp : Option Spp)
  | einsum (children : List Node) (eqspp : Option Spp)
  | add (children : List Node) (eqspp : Option Spp)
  | scalarMul (scalar : Scalar) (term : Node) (eqspp : Option Spp)
  | assign (lTerm : Node) (rTerm : Node) (eqspp : Option Spp)
  | product (lTerm : Node) (rTerm : Node) (eqspp : Option Spp)
deriving Repr

/-- `isinstance(n, IndexedTensor)`. -/
def Node.isIndexedTensor : Node → Bool
  | .indexedTensor .. => true
  | _ => false

/-- `isinstance(n, ScalarMultiplication)`. -/
def Node.isScalarMul : Node → Bool
  | .scalarMul .. => true
  | _ => false

/-- `isinstance(n, Add)`. -/
def Node.isAdd : Node → Bool
  | .add .. => true
  | _ => false

/-- `isinstance(n, Einsum)`. -/
def Node.isEinsum : Node → Bool
  | .einsum .. => true
  | _ => false

/-- The node's `_eqspp` slot. -/
def Node.eqspp : Node → Option Spp
  | .indexedTensor _ _ e => e
  | .einsum _ e => e
  | .add _ e => e
  | .scalarMul _ _ e => e
  | .assign _ _ e => e
  | .product _ _ e => e

/-- The `_children` list (`Node.__iter__`). -/
def Node.childList : Node → List Node
  | .indexedTensor .. => []
  | .einsum cs _ => cs
  | .add cs _ => cs
  | .scalarMul _ t _ => [t]
  | .assign l r _ => [l, r]
  | .product l r _ => [l, r]

/-- The two associative n-ary operation kinds `_binOp` is instantiated with:
multiplication folds into `Einsum`, addition into `Add`. -/
inductive OpKind where
  | einsumOp
  | addOp
deriving DecidableEq, Repr

/-- `isinstance(n, opType)` for the two `_binOp` operation kinds. -/
def isKindOf : OpKind → Node → Bool
  | .einsumOp, n => n.isEinsum
  | .addOp, n => n.isAdd

/-- In-place replacement of an `Einsum`/`Add` node's `_children`; every other
field of the mutated node is kept. -/
def withChildren : Node → List Node → Node
  | .einsum _ e, cs => .einsum cs e
  | .add _ e, cs => .add cs e
  | n, _ => n

/-- `opType(self, other)`: a fresh binary node; `Op.__init__` leaves
`_eqspp = None`. -/
def mkOp : OpKind → Node → Node → Node
  | .einsumOp, a, b => .einsum [a, b] none
  | .addOp, a, b => .add [a, b] none

/-- `Node._binOp(self, other, opType)`: absorb into an existing node of the
given kind (flattening the other side when it is of the same kind), else build
a fresh binary node. -/
def binOp (k : OpKind) (a b : Node) : Node :=
  if isKindOf k a then
    if isKindOf k b then withChildren a (a.childList ++ b.childList)
    else withChildren a (a.childList ++ [b])
  else if isKindOf k b then withChildren b (a :: b.childList)
  else mkOp k a b

/-- The message of the invalid-composition error of
`Node._checkMultipleScalarMults`. -/
def multipleScalarMultsMsg : String :=
  "Multiple multiplications with scalars are not allowed. Merge them into a single one."

/-- `Node._checkMultipleScalarMults`: raises when the receiver is a
`ScalarMultiplication`. -/
def checkMultipleScalarMults (n : Node) : Except PyErr Unit :=
  if n.isScalarMul then .error (.valueError multipleScalarMultsMsg) else .ok ()

/-- `Node.__mul__` restricted to the case where both operands are `Node`s.
`ScalarMultiplication.setTerm` replaces `_children[0]` and leaves scalar and
`_eqspp` in place (the index bookkeeping it also updates lives in the absent
`indices.py` and is not carried on this tree). -/
def mulNode : Node → Node → Except PyErr Node
  | .scalarMul sc t e, b => do
      let _ ← checkMultipleScalarMults b
      let t2 ← mulNode t b
      return .scalarMul sc t2 e
  | a, .scalarMul sc t e => do
      let _ ← checkMultipleScalarMults a
      let t2 ← mulNode a t
      return .scalarMul sc t2 e
  | a, b => return binOp .einsumOp a b
termination_by a b => sizeOf a + sizeOf b
decreasing_by all_goals (simp_wf; omega)

/-- `Node.__neg__`: scalar multiplication by the constant -1.0, rejected on a
receiver that is already a `ScalarMultiplication`. -/
def negNode (a : Node) : Except PyErr Node := do
  let _ ← checkMultipleScalarMults a
  return .scalarMul (.const (-1)) a none

/-- `Node.__sub__`: addition of the negated right operand. -/
def subNode (a b : Node) : Except PyErr Node := do
  let nb ← negNode b
  return binOp .addOp a nb

/-- `Node.__add__` restricted to two `Node` operands. -/
def addNode (a b : Node) : Node := binOp .addOp a b

/-- A Python value taking part in the overloaded arithmetic operators: either
an expression node or a plain number (Python `float`/`int`). -/
inductive PyVal where
  | node (n : Node)
  | num (v : Rat)
deriving Repr

/-- The statically known part of the `Node.__add__` error message. -/
def cannotAddMsg : String := "Unsupported operation: Cannot add"

/-- The Python `*` operator over nodes and numbers.  `num * node` dispatches
through `Node.__rmul__`, which delegates to `Node.__mul__`; a non-`Node` right
operand is wrapped into a fresh `ScalarMultiplication` after the
multiple-scalar-multiplication check on the receiver. -/
def pyMul : PyVal → PyVal → Except PyErr PyVal
  | .node a, .node b => do
      let r ← mulNode a b
      return .node r
  | .node a, .num v => do
      let _ ← checkMultipleScalarMults a
      return .node (.scalarMul (.const v) a none)
  | .num v, .node a => do
      let _ ← checkMultipleScalarMults a
      return .node (.scalarMul (.const v) a none)
  | .num v, .num w => return .num (v * w)

/-- The Python `+` operator over nodes and numbers.  `Node.__add__` raises a
`ValueError` on a non-`Node` operand, and `num + node` dispatches through
`Node.__radd__` into the same raise. -/
def pyAdd : PyVal → PyVal → Except PyErr PyVal
  | .node a, .node b => return .node (binOp .addOp a b)
  | .node _, .num _ => .error (.valueError cannotAddMsg)
  | .num _, .node _ => .error (.valueError cannotAddMsg)
  | .num v, .num w => return .num (v + w)

/-- `Node.__le__`.  `sameObject` models the Python identity test
`self == other` (no `Node` class overrides `__eq__`, so `==` is object
identity there); it can only be `true` when both arguments are the same
value. -/
def Node_le (sameObject : Bool) (l r : Node) : Node :=
  if r.isIndexedTensor && !sameObject then .assign l (.einsum [r] none) none
  else .assign l r none

/-- `Assign(l, r)`: `BinOp.__init__` delegates to `Op.__init__`, which stores
the children directly and performs no check (in particular it does not route
through `setChildren`), so construction never raises. -/
def Assign_init (l r : Node) : Except PyErr Node := .ok (.assign l r none)

/-- The statically known part of the `Assign.setChildren` error message. -/
def assignFirstChildMsg : String := "First child of Assign node must be an IndexedTensor"

/-- The `BinOp.setChildren` error message. -/
def binOpChildrenMsg : String := "BinOp node must have exactly 2 children."

/-- `Assign.setChildren`: rejects a first child that is not an
`IndexedTensor`, then `BinOp.setChildren` rejects a child list whose length is
not 2.  Indexing `children[0]` on an empty list raises `IndexError` first. -/
def Assign_setChildren (children : List Node) : Except PyErr (List Node) :=
  match children with
  | [] => .error .indexError
  | c :: _ =>
    if !c.isIndexedTensor then .error (.valueError assignFirstChildMsg)
    else if children.length != 2 then .error (.valueError binOpChildrenMsg)
    else .ok children

/-! ## The lowering pass (`yateto/controlflow/visitor.py`)

`Variable`, `ProgramAction` and `ProgramPoint` live in `controlflow/graph.py`,
which is not part of the excerpt; they are modelled from the spec (section 3):
a Variable is a name, a writability flag, an optional referenced global Tensor
(none marks a compiler temporary) and an optional sparsity pattern; a
ProgramAction is a result Variable, a term (an expression node with its
ordered input Variables, or a single source Variable), an accumulate flag and
an optional scalar factor.  A global Variable is one referencing a Tensor.
Memory layouts are produced by the external layout engine and never inspected
by any embedded code path, so they are not carried. -/

/-- Modelled from the spec: control-flow operand of `controlflow/graph.py`
(not in the excerpt). -/
structure Variable where
  name : String
  writable : Bool
  tensor : Option Tensor
  eqspp : Option Spp
deriving DecidableEq, Repr

/-- Modelled from the spec: a Variable is global iff it references a Tensor. -/
def Variable.isGlobal (v : Variable) : Bool := v.tensor.isSome

/-- Modelled from the spec: the term of a ProgramAction — an expression node
with its ordered input Variables, or a single source Variable for a plain
copy. -/
inductive Term where
  | expr (node : Node) (vars : List Variable)
  | var (v : Variable)
deriving Repr

/-- The source Variable of a plain-copy term. -/
def Term.source : Term → Option Variable
  | .var v => some v
  | .expr _ _ => none

/-- Modelled from the spec: one primitive compute/copy step of the linearised
kernel (`controlflow/graph.py`, not in the excerpt). -/
structure ProgramAction where
  result : Variable
  term : Term
  add : Bool
  scalar : Option Scalar
deriving Repr

/-- The mutable state of one `AST2ControlFlow` pass instance: the temporary
counter `_tmp`, the writable-name set `_writable` (a Python set; modelled as a
duplicate-free list, only membership and insertion are used) and the
accumulated action list `_cfg`. -/
structure CFState where
  tmp : Nat
  writable : List String
  cfg : List ProgramAction
deriving Repr

/-- Union with a one-element set: `self._writable | {name}`. -/
def insertName (nm : String) (l : List String) : List String :=
  if l.contains nm then l else nm :: l

/-- `self._cfg.append(ProgramPoint(action))`. -/
def pushAction (a : ProgramAction) (s : CFState) : CFState :=
  { s with cfg := s.cfg ++ [a] }

/-- `AST2ControlFlow._nextTemporary`: a fresh writable local Variable named
from the counter, carrying the node's sparsity pattern. -/
def nextTemporary (n : Node) (s : CFState) : Variable × CFState :=
  (⟨"_tmp" ++ toString s.tmp, true, none, n.eqspp⟩, { s with tmp := s.tmp + 1 })

/-- The sort key of `visit_Add`:
`int(not var.writable) + int(not var.isGlobal())`. -/
def addSortKey (v : Variable) : Nat :=
  (if v.writable then 0 else 1) + (if v.isGlobal then 0 else 1)

/-- `variables.sort(key=addSortKey)`: Python `list.sort` is stable, and the
key only takes the values 0, 1 and 2, so the sorted list is exactly the
concatenation of the three key classes in key order, each in original
order. -/
def sortVariables (vs : List Variable) : List Variable :=
  vs.filter (fun v => addSortKey v == 0) ++ vs.filter (fun v => addSortKey v == 1)
    ++ vs.filter (fun v => addSortKey v == 2)

/-- The accumulation loop of `visit_Add`: one action per operand into the
temporary, the flag starting at `False` and set to `True` after the first
action. -/
def accumActions (tmp : Variable) : List Variable → Bool → List ProgramAction
  | [], _ => []
  | v :: vs, addFlag => ⟨tmp, .var v, addFlag, none⟩ :: accumActions tmp vs true

/-- `node[0].name()` as used by `visit_Assign`: `IndexedTensor.name` returns
the tensor's name, `ScalarMultiplication.name` renders its scalar; every other
node class has no `name` method (`AttributeError`, modelled as `none`; the
rendering of a constant scalar differs from Python float formatting, which no
claim observes). -/
def nodeName : Node → Option String
  | .indexedTensor t _ _ => some t.name
  | .scalarMul (.const v) _ _ => some (toString v)
  | .scalarMul (.runtime nm) _ _ => some nm
  | _ => none

mutual

/-- `AST2ControlFlow.visit` / the per-class visitor arms.  `visit_Add` first
evaluates the children, asserts more than one operand, stably reorders the
operand Variables by `addSortKey`, allocates one fresh temporary and emits one
action per operand; `visit_ScalarMultiplication` emits a single copy action
carrying the scalar; `visit_Assign` registers the left child's name as
writable before visiting any child and emits a final non-accumulating copy
into the left Variable; `visit_IndexedTensor` resolves to a Variable whose
writability is membership in the writable set; `Einsum` and `Product` nodes
take the `generic_visit` arm.  A `none` result models a raised Python
exception. -/
def visit : Node → CFState → Option (Variable × CFState)
  | .indexedTensor t _idx e, s =>
      some (⟨t.name, s.writable.contains t.name, some t, e⟩, s)
  | .add cs e, s => do
      let (vs, s1) ← visitList cs s
      if vs.length ≤ 1 then none else
      let sorted := sortVariables vs
      let (tmp, s2) := nextTemporary (.add cs e) s1
      some (tmp, (accumActions tmp sorted false).foldl (fun st a => pushAction a st) s2)
  | .scalarMul sc t e, s => do
      let (v, s1) ← visit t s
      let (r, s2) := nextTemporary (.scalarMul sc t e) s1
      some (r, pushAction ⟨r, .var v, false, some sc⟩ s2)
  | .assign l r _e, s => do
      let nm ← nodeName l
      let s0 := { s with writable := insertName nm s.writable }
      let (vl, s1) ← visit l s0
      let (vr, s2) ← visit r s1
      some (vl, pushAction ⟨vl, .var vr, false, none⟩ s2)
  | .einsum cs e, s => do
      let (vs, s1) ← visitList cs s
      let (r, s2) := nextTemporary (.einsum cs e) s1
      some (r, pushAction ⟨r, .expr (.einsum cs e) vs, false, none⟩ s2)
  | .product l r e, s => do
      let (vl, s1) ← visit l s
      let (vr, s2) ← visit r s1
      let (res, s3) := nextTemporary (.product l r e) s2
      some (res, pushAction ⟨res, .expr (.product l r e) [vl, vr], false, none⟩ s3)

/-- The state-threaded child evaluation
`variables = [self.visit(child) for child in node]`. -/
def visitList : List Node → CFState → Option (List Variable × CFState)
  | [], s => some ([], s)
  | c :: cs, s => do
      let (v, s1) ← visit c s
      let (vs, s2) ← visitList cs s1
      some (v :: vs, s2)

end

/-- `AST2ControlFlow.cfg()`: the accumulated program points followed by the
action-less sentinel (`ProgramPoint(None)` modelled as `none`). -/
def cfgOut (s : CFState) : List (Option ProgramAction) :=
  s.cfg.map some ++ [none]

/-- The initial state of a fresh `AST2ControlFlow` instance. -/
def initialCFState : CFState := ⟨0, [], []⟩

/-! ## FLOP accounting (`nonZeroFlops` of `yateto/ast/node.py`) -/

/-- `self._isConstant and self._scalar in [-1.0, 1.0]` of
`ScalarMultiplication.nonZeroFlops`. -/
def scalarIsPmOne : Scalar → Bool
  | .const v => v == 1 || v == -1
  | .runtime _ => false

/-- The accumulation loop of `Add.nonZeroFlops`:
`nzFlops += child.eqspp().count_nonzero()` over the children, failing
(`AttributeError` on `None`) when a child's pattern is unset. -/
def addChildFlops : List Node → Option Nat
  | [] => some 0
  | c :: cs => do
      let p ← c.eqspp
      let rest ← addChildFlops cs
      some (count_nonzero p + rest)

/-- `nonZeroFlops` per node class: 0 for a leaf `IndexedTensor` and for
`Assign`; `NotImplementedError` (modelled `none`) for the unresolved `Einsum`
placeholder; children-sum minus own count for `Add`; 0 for a scalar
multiplication by a compile-time constant 1.0 or -1.0 and the result's
non-zero count otherwise; the result's non-zero count for `Product`.  The
result is an integer, as in Python. -/
def nonZeroFlops : Node → Option Int
  | .indexedTensor .. => some 0
  | .einsum .. => none
  | .add cs e => do
      let total ← addChildFlops cs
      let own ← e
      some ((total : Int) - (count_nonzero own : Int))
  | .scalarMul sc _ e =>
      if scalarIsPmOne sc then some 0
      else do
        let p ← e
        some ((count_nonzero p : Int))
  | .assign .. => some 0
  | .product _ _ e => do
      let p ← e
      some ((count_nonzero p : Int))

/-! ## `LoopOverGEMM.__init__` (`yateto/ast/node.py`)

The index algebra (`Indices` of the absent `indices.py`) is modelled from the
spec as the ordered list of index names of an operand; `find` is the spec's
position lookup. -/

/-- Modelled from the spec: `Indices.find`, the storage position of a named
index within the ordered index list of `indices.py` (not in the excerpt). -/
def indicesFind (idx : List String) (nm : String) : Nat := idx.indexOf nm

/-- The fields of a `LoopOverGEMM` node set by its constructor (the operands
are retained only through their ordered index names, all that the constructor
inspects). -/
structure LoopOverGEMMData where
  aIndices : List String
  bIndices : List String
  m : List String
  n : List String
  k : List String
  transA : Bool
  transB : Bool
deriving DecidableEq, Repr

/-- `LoopOverGEMM.isGEMV`: the N index group is empty. -/
def LoopOverGEMM_isGEMV (g : LoopOverGEMMData) : Bool := g.n.length == 0

/-- `LoopOverGEMM.__init__`: `_transA` holds iff `m[0]` sits after `k[0]` in
the left operand's index order, and `_transB` holds iff the node is not a GEMV
and `k[0]` sits after `n[0]` in the right operand's index order (the Python
`and` short-circuits, so `n[0]` is only read when `n` is non-empty;
`m[0]`/`k[0]` on an empty group would raise, modelled by a default that no
hypothesis-satisfying instance reaches). -/
def LoopOverGEMM_init (aIndices bIndices m n k : List String) : LoopOverGEMMData :=
  let tA := indicesFind aIndices (m.headD "") > indicesFind aIndices (k.headD "")
  let tB := !(n.length == 0)
    && decide (indicesFind bIndices (k.headD "") > indicesFind bIndices (n.headD ""))
  ⟨aIndices, bIndices, m, n, k, tA, tB⟩

/-! ## Global-variable grouping collection
(`OptimisedKernelGenerator.generate`, `yateto/codegen/visitor.py`)

The loop over the sorted global Variables inspects each variable's tensor
only through `baseName()` and `group()`, so it is embedded over the list of
those pairs.  The `tensors` ordered dictionary maps a base name to `None`
(ungrouped) or to the set of groups seen (a duplicate-free list in insertion
order). -/

/-- `p | {g}` on the group set. -/
def insertGroup (ps : List Nat) (g : Nat) : List Nat :=
  if ps.contains g then ps else ps ++ [g]

/-- Replacement of the value stored under an existing key of the ordered
dictionary. -/
def updateAssoc (bn : String) (val : Option (List Nat))
    (tensors : List (String × Option (List Nat))) : List (String × Option (List Nat)) :=
  tensors.map fun p => if p.1 == bn then (p.1, val) else p

/-- One iteration of the collection loop.  On a base name already present with
a group set while the new variable is ungrouped (or the reverse), the code
executes `raise ValueError(... .format(node.name(), bn))` — but no `node` is
in scope there, so evaluating the format arguments raises `NameError` before
the `ValueError` is ever built, and the message never mentions the base
name. -/
def collectStep (tensors : List (String × Option (List Nat))) (v : String × Option Nat) :
    Except PyErr (List (String × Option (List Nat))) :=
  let bn := v.1
  let g := v.2
  match tensors.lookup bn with
  | some p =>
    match p, g with
    | some ps, some gv => .ok (updateAssoc bn (some (insertGroup ps gv)) tensors)
    | none, none => .ok tensors
    | _, _ => .error (.nameError "name node is not defined")
  | none => .ok (tensors ++ [(bn, g.map (fun gv => [gv]))])

/-- The global-variable grouping collection: the loop of
`OptimisedKernelGenerator.generate` over the sorted global variables, each
given by its tensor's base name and optional group. -/
def collectTensors (vars : List (String × Option Nat)) :
    Except PyErr (List (String × Option (List Nat))) :=
  vars.foldlM collectStep []

/-! ## Spec-side definitions used for refinement comparison -/

/-- Follows the spec's words, for comparison with `sortVariables`: a stable
reorder preferring already-writable operands first and then already-global
operands first, i.e. the stable sort by the lexicographic key
(not writable, not global). -/
def specLexSortVariables (vs : List Variable) : List Variable :=
  vs.filter (fun v => v.writable && v.isGlobal)
    ++ vs.filter (fun v => v.writable && !v.isGlobal)
    ++ vs.filter (fun v => !v.writable && v.isGlobal)
    ++ vs.filter (fun v => !v.writable && !v.isGlobal)

/-! ## Sample concrete nodes used by witnesses and counterexamples -/

/-- `A[ik]` over a sample tensor. -/
def sampleA : Node := .indexedTensor ⟨"A"⟩ ["i", "k"] none

/-- `B[kj]` over a sample tensor. -/
def sampleB : Node := .indexedTensor ⟨"B"⟩ ["k", "j"] none

/-- `X[ij]` over a sample tensor. -/
def sampleX : Node := .indexedTensor ⟨"X"⟩ ["i", "j"] none

/-- `D[ij]` over a sample tensor. -/
def sampleD : Node := .indexedTensor ⟨"D"⟩ ["i", "j"] none

/-- The `Einsum` produced by composing `A[ik] * B[kj]` in the DSL. -/
def sampleEinsumAB : Node := .einsum [sampleA, sampleB] none

/-! ## Helper lemmas -/

/-- `Node.__mul__` on two operands neither of which is a
`ScalarMultiplication` falls through to `_binOp` with `Einsum`. -/
theorem mulNode_of_not_scalarMul (a b : Node) (ha : a.isScalarMul = false)
    (hb : b.isScalarMul = false) : mulNode a b = .ok (binOp .einsumOp a b) := by
  cases a <;> cases b <;>
    simp_all [mulNode, Node.isScalarMul, checkMultipleScalarMults] <;> rfl

/-! ## Claims -/

/-- C1 (counterexample): constructing an `Assign` whose left operand is the
`Einsum` `A[ik]*B[kj]` — not an `IndexedTensor` — succeeds without any error:
`Assign.__init__` (through `BinOp`/`Op`) stores the children directly and
never calls `setChildren`, so the claimed construction-time failure does not
occur and an `Assign` with a non-`IndexedTensor` left child comes into
existence. -/
theorem thmC1_counterexample :
    Node.isIndexedTensor sampleEinsumAB = false ∧
    Assign_init sampleEinsumAB sampleX = .ok (.assign sampleEinsumAB sampleX none) :=
  ⟨rfl, rfl⟩

/-- C1 (amended): replacing an `Assign` node's children through `setChildren`
with a first child that is not an `IndexedTensor` always fails with the
invalid-composition `ValueError`; construction itself performs no check and
always succeeds. -/
theorem thmC1 (c : Node) (rest : List Node) (h : c.isIndexedTensor = false) :
    Assign_setChildren (c :: rest) = .error (.valueError assignFirstChildMsg) ∧
    ∀ l r : Node, Assign_init l r = .ok (.assign l r none) := by
  refine ⟨?_, fun l r => rfl⟩
  simp [Assign_setChildren, h]

/-- C1 (witness): the amended claim at the concrete input
`Assign.setChildren([A[ik]*B[kj], X[ij]])`. -/
theorem thmC1_witness :
    Assign_setChildren [sampleEinsumAB, sampleX] =
      .error (.valueError assignFirstChildMsg) :=
  (thmC1 sampleEinsumAB [sampleX] rfl).1

/-- C3: for every `ScalarMultiplication` node, multiplying it by a plain
number (in either operand order) raises the invalid-composition `ValueError`,
multiplying it by another `ScalarMultiplication` raises it, negating it raises
it, and multiplying it by a plain non-scalar-multiplication expression merges
into the single existing wrapper (the wrapped term becomes the product of the
old term with the new factor; scalar and pattern slot are kept). -/
theorem thmC3 (sc : Scalar) (t : Node) (e : Option Spp) :
    (∀ q : Rat, pyMul (.node (.scalarMul sc t e)) (.num q) =
        .error (.valueError multipleScalarMultsMsg)) ∧
    (∀ q : Rat, pyMul (.num q) (.node (.scalarMul sc t e)) =
        .error (.valueError multipleScalarMultsMsg)) ∧
    (∀ (sc2 : Scalar) (t2 : Node) (e2 : Option Spp),
        mulNode (.scalarMul sc t e) (.scalarMul sc2 t2 e2) =
          .error (.valueError multipleScalarMultsMsg)) ∧
    negNode (.scalarMul sc t e) = .error (.valueError multipleScalarMultsMsg) ∧
    (∀ b : Node, b.isScalarMul = false → t.isScalarMul = false →
        mulNode (.scalarMul sc t e) b = .ok (.scalarMul sc (binOp .einsumOp t b) e)) := by
  refine ⟨?_, ?_, ?_, ?_, ?_⟩
  · intro q
    simp [pyMul, checkMultipleScalarMults, Node.isScalarMul]
  · intro q
    simp [pyMul, checkMultipleScalarMults, Node.isScalarMul]
  · intro sc2 t2 e2
    rw [mulNode]
    rfl
  · simp [negNode, checkMultipleScalarMults, Node.isScalarMul]
  · intro b hb ht
    rw [mulNode]
    rw [show checkMultipleScalarMults b = .ok () from by
      simp [checkMultipleScalarMults, hb]]
    rw [mulNode_of_not_scalarMul t b ht hb]
    rfl

/-- C3 (witness): the rejections and the merge at the concrete scalar wrapper
`3.0 * X[ij]`, multiplied by `2.0`, by `3.0 * X[ij]` itself, negated, and
multiplied by the plain expression `A[ik]`. -/
theorem thmC3_witness :
    pyMul (.node (.scalarMul (.const 3) sampleX none)) (.num 2) =
        .error (.valueError multipleScalarMultsMsg) ∧
    mulNode (.scalarMul (.const 3) sampleX none) (.scalarMul (.const 3) sampleX none) =
        .error (.valueError multipleScalarMultsMsg) ∧
    negNode (.scalarMul (.const 3) sampleX none) =
        .error (.valueError multipleScalarMultsMsg) ∧
    mulNode (.scalarMul (.const 3) sampleX none) sampleA =
        .ok (.scalarMul (.const 3) (binOp .einsumOp sampleX sampleA) none) :=
  ⟨(thmC3 (.const 3) sampleX none).1 2,
   (thmC3 (.const 3) sampleX none).2.2.1 (.const 3) sampleX none,
   (thmC3 (.const 3) sampleX none).2.2.2.1,
   (thmC3 (.const 3) sampleX none).2.2.2.2 sampleA rfl rfl⟩

/-- C4 (counterexample): applying the assignment operator to one and the same
`IndexedTensor` object (`self == other` holds, Python object identity) skips
the `Einsum` wrap: the resulting `Assign`'s right child is the bare
`IndexedTensor` itself, contradicting the claim that the right child is never
a bare `IndexedTensor`. -/
theorem thmC4_counterexample :
    Node.isIndexedTensor sampleA = true ∧
    Node_le true sampleA sampleA = .assign sampleA sampleA none :=
  ⟨rfl, rfl⟩

/-- C4 (amended): when the right operand is an `IndexedTensor` and is not the
same object as the left operand, the assignment operator wraps it in an
`Einsum` placeholder, so the right child of the produced `Assign` is then
never a bare `IndexedTensor`. -/
theorem thmC4 (sameObject : Bool) (l r : Node) (hr : r.isIndexedTensor = true)
    (hne : sameObject = false) :
    Node_le sameObject l r = .assign l (.einsum [r] none) none := by
  simp [Node_le, hr, hne]

/-- C4 (witness): the amended claim at the concrete assignment
`X[ij] <= A[ik]` of two distinct objects. -/
theorem thmC4_witness : Node_le false sampleX sampleA = .assign sampleX (.einsum [sampleA] none) none :=
  thmC4 false sampleX sampleA rfl rfl

/-- C7: composing `A+B+C` in either association order, with none of the three
operands an `Add`, yields a single flat `Add` node with exactly the children
`[A, B, C]` in left-to-right order. -/
theorem thmC7 (A B C : Node) (hA : A.isAdd = false) (hB : B.isAdd = false)
    (hC : C.isAdd = false) :
    addNode (addNode A B) C = .add [A, B, C] none ∧
    addNode A (addNode B C) = .add [A, B, C] none := by
  have hAddTrue : ∀ (cs : List Node) (e : Option Spp), Node.isAdd (.add cs e) = true :=
    fun _ _ => rfl
  constructor
  · have h1 : addNode A B = .add [A, B] none := by
      simp [addNode, binOp, isKindOf, hA, hB, mkOp]
    rw [h1]
    simp [addNode, binOp, isKindOf, hC, hAddTrue, withChildren, Node.childList]
  · have h1 : addNode B C = .add [B, C] none := by
      simp [addNode, binOp, isKindOf, hB, hC, mkOp]
    rw [h1]
    simp [addNode, binOp, isKindOf, hA, hAddTrue, withChildren, Node.childList]

/-- C7 (witness): both association orders of `A[ik] + B[kj] + X[ij]` produce
the single three-child `Add`. -/
theorem thmC7_witness :
    addNode (addNode sampleA sampleB) sampleX = .add [sampleA, sampleB, sampleX] none ∧
    addNode sampleA (addNode sampleB sampleX) = .add [sampleA, sampleB, sampleX] none :=
  thmC7 sampleA sampleB sampleX rfl rfl rfl

/-- C10: adding a plain number to a `Node` raises a `ValueError` in either
operand order (`__radd__` delegates to `__add__`, which rejects any non-`Node`
operand), while multiplication by a plain number instead wraps the expression
into a `ScalarMultiplication` (when the expression is not already one). -/
theorem thmC10 (n : Node) (v : Rat) :
    pyAdd (.node n) (.num v) = .error (.valueError cannotAddMsg) ∧
    pyAdd (.num v) (.node n) = .error (.valueError cannotAddMsg) ∧
    (n.isScalarMul = false →
      pyMul (.node n) (.num v) = .ok (.node (.scalarMul (.const v) n none))) := by
  refine ⟨rfl, rfl, fun h => ?_⟩
  simp [pyMul, checkMultipleScalarMults, h]

/-- C10 (witness): adding `2.0` to `X[ij]` fails both ways while multiplying
wraps. -/
theorem thmC10_witness :
    pyAdd (.node sampleX) (.num 2) = .error (.valueError cannotAddMsg) ∧
    pyAdd (.num 2) (.node sampleX) = .error (.valueError cannotAddMsg) ∧
    pyMul (.node sampleX) (.num 2) = .ok (.node (.scalarMul (.const 2) sampleX none)) :=
  ⟨(thmC10 sampleX 2).1, (thmC10 sampleX 2).2.1, (thmC10 sampleX 2).2.2 rfl⟩

/-- The list of a node list's sparsity patterns, present only when every
node's pattern slot is set ("with all child sparsity patterns fixed"). -/
def childSpps : List Node → Option (List Spp)
  | [] => some []
  | c :: cs => do
      let p ← c.eqspp
      let ps ← childSpps cs
      some (p :: ps)

/-- The child-flops loop of `Add.nonZeroFlops` computed from the list of the
children's (all present) patterns. -/
theorem addChildFlops_eq (cs : List Node) (ps : List Spp)
    (h : childSpps cs = some ps) :
    addChildFlops cs = some (ps.map count_nonzero).sum := by
  induction cs generalizing ps with
  | nil =>
    simp only [childSpps, Option.some.injEq] at h
    simp [← h, addChildFlops]
  | cons c cs ih =>
    cases hc : c.eqspp with
    | none => simp [childSpps, hc] at h
    | some p =>
      cases hcs : childSpps cs with
      | none => simp [childSpps, hc, hcs] at h
      | some ps2 =>
        have h2 : p :: ps2 = ps := by simpa [childSpps, hc, hcs] using h
        subst h2
        simp [addChildFlops, hc, ih ps2 hcs]

/-- C6: with every child pattern fixed, an `Add` node's `nonZeroFlops` is the
sum of the children's non-zero counts minus the node's own result non-zero
count; a `ScalarMultiplication` by the compile-time constant `1.0` or `-1.0`
reports 0 FLOPs (regardless of its pattern slot), and by any other scalar —
constant or runtime-named — reports the non-zero count of its result
pattern. -/
theorem thmC6 (cs : List Node) (ps : List Spp) (q : Spp)
    (h : childSpps cs = some ps) :
    nonZeroFlops (.add cs (some q)) =
      some (((ps.map count_nonzero).sum : Int) - (count_nonzero q : Int)) ∧
    (∀ (t : Node) (e : Option Spp), nonZeroFlops (.scalarMul (.const 1) t e) = some 0) ∧
    (∀ (t : Node) (e : Option Spp), nonZeroFlops (.scalarMul (.const (-1)) t e) = some 0) ∧
    (∀ (v : Rat) (t : Node) (p : Spp), v ≠ 1 → v ≠ -1 →
        nonZeroFlops (.scalarMul (.const v) t (some p)) = some ((count_nonzero p : Int))) ∧
    (∀ (nm : String) (t : Node) (p : Spp),
        nonZeroFlops (.scalarMul (.runtime nm) t (some p)) = some ((count_nonzero p : Int))) := by
  refine ⟨?_, ?_, ?_, ?_, ?_⟩
  · simp [nonZeroFlops, addChildFlops_eq cs ps h]
  · intro t e
    simp [nonZeroFlops, scalarIsPmOne]
  · intro t e
    simp [nonZeroFlops, scalarIsPmOne]
  · intro v t p hv1 hv2
    simp [nonZeroFlops, scalarIsPmOne, hv1, hv2]
  · intro nm t p
    simp [nonZeroFlops, scalarIsPmOne]

/-- C6 (witness): two leaves with patterns of 2 and 1 non-zeros under an `Add`
whose own pattern has 2 non-zeros report 2+1-2 = 1 FLOP, and a scaling by the
constant 2.0 reports its result count. -/
theorem thmC6_witness :
    nonZeroFlops (.add [.indexedTensor ⟨"A"⟩ ["i"] (some [[0], [1]]),
        .indexedTensor ⟨"B"⟩ ["i"] (some [[0]])] (some [[0], [1]])) = some 1 ∧
    nonZeroFlops (.scalarMul (.const 1) sampleX none) = some 0 ∧
    nonZeroFlops (.scalarMul (.const 2) sampleX (some [[0], [1]])) = some 2 :=
  ⟨(thmC6 [.indexedTensor ⟨"A"⟩ ["i"] (some [[0], [1]]),
      .indexedTensor ⟨"B"⟩ ["i"] (some [[0]])] [[[0], [1]], [[0]]] [[0], [1]] rfl).1,
   (thmC6 [] [] [] rfl).2.1 sampleX none,
   (thmC6 [] [] [] rfl).2.2.2.1 2 sampleX [[0], [1]] (by norm_num) (by norm_num)⟩

/-- C8: in `LoopOverGEMM.__init__` with index groups `(M, N, K)` where `M` and
`K` are non-empty, the node is the matrix-vector variant exactly when `N` is
empty; the left operand is flagged transposed exactly when the storage
position of `M`'s leading index in the left operand's index order comes after
that of `K`'s leading index; and the right operand is flagged transposed
exactly when `N` is non-empty and the position of `K`'s leading index in the
right operand's index order comes after that of `N`'s leading index. -/
theorem thmC8 (aI bI m n k : List String) (_hm : m ≠ []) (_hk : k ≠ []) :
    (LoopOverGEMM_isGEMV (LoopOverGEMM_init aI bI m n k) = true ↔ n = []) ∧
    ((LoopOverGEMM_init aI bI m n k).transA = true ↔
        indicesFind aI (m.headD "") > indicesFind aI (k.headD "")) ∧
    ((LoopOverGEMM_init aI bI m n k).transB = true ↔
        n ≠ [] ∧ indicesFind bI (k.headD "") > indicesFind bI (n.headD "")) := by
  refine ⟨?_, ?_, ?_⟩
  · simp [LoopOverGEMM_isGEMV, LoopOverGEMM_init, List.length_eq_zero]
  · simp [LoopOverGEMM_init]
  · simp [LoopOverGEMM_init, List.length_eq_zero, and_comm]

/-- C8 (witness): for `A` stored as `[k, i]`, `B` stored as `[k, j]` and the
partition `M = [i]`, `N = [j]`, `K = [k]`, the node is not a GEMV, `A` is
flagged transposed (position of `i` is 1, after `k` at 0) and `B` is not. -/
theorem thmC8_witness :
    LoopOverGEMM_isGEMV (LoopOverGEMM_init ["k", "i"] ["k", "j"] ["i"] ["j"] ["k"]) = false ∧
    (LoopOverGEMM_init ["k", "i"] ["k", "j"] ["i"] ["j"] ["k"]).transA = true ∧
    (LoopOverGEMM_init ["k", "i"] ["k", "j"] ["i"] ["j"] ["k"]).transB = false := by
  have h := thmC8 ["k", "i"] ["k", "j"] ["i"] ["j"] ["k"]
    (by simp) (by simp)
  refine ⟨?_, h.2.1.mpr (by decide), ?_⟩
  · cases hg : LoopOverGEMM_isGEMV (LoopOverGEMM_init ["k", "i"] ["k", "j"] ["i"] ["j"] ["k"]) with
    | false => rfl
    | true => exact absurd (h.1.mp hg) (by decide)
  · cases hb : (LoopOverGEMM_init ["k", "i"] ["k", "j"] ["i"] ["j"] ["k"]).transB with
    | false => rfl
    | true => exact absurd (h.2.2.mp hb).2 (by decide)

/-- C9: mixing a grouped and an ungrouped variable under the base name `X`
makes the collection loop raise immediately — but with a `NameError` (the
raise statement interpolates `node.name()` and no `node` is in scope), not the
intended `ValueError` naming the base name, so the error message never
mentions `X`; without mixing, collection succeeds and accumulates the group
sets. -/
theorem thmC9 :
    collectTensors [("X", some 0), ("X", none)] =
      .error (.nameError "name node is not defined") ∧
    collectTensors [("X", none), ("X", some 0)] =
      .error (.nameError "name node is not defined") ∧
    collectTensors [("X", some 0), ("X", some 1), ("Y", none)] =
      .ok [("X", some [0, 1]), ("Y", none)] :=
  ⟨rfl, rfl, rfl⟩

/-- Appending actions never touches the writable set. -/
theorem pushAction_writable (a : ProgramAction) (s : CFState) :
    (pushAction a s).writable = s.writable := rfl

/-- Folding action appends never touches the writable set. -/
theorem foldlPush_writable (as : List ProgramAction) (s : CFState) :
    (as.foldl (fun st a => pushAction a st) s).writable = s.writable := by
  induction as generalizing s with
  | nil => rfl
  | cons a as ih =>
    rw [List.foldl_cons, ih]
    rfl

/-- Allocating a temporary never touches the writable set. -/
theorem nextTemporary_writable (n : Node) (s : CFState) :
    (nextTemporary n s).2.writable = s.writable := rfl

/-- Membership in the writable set survives a registration. -/
theorem insertName_contains_mono (nm x : String) (l : List String)
    (h : l.contains x = true) : (insertName nm l).contains x = true := by
  unfold insertName
  split
  · exact h
  · simp_all [List.contains_cons]

/-- The registered name is in the writable set afterwards. -/
theorem insertName_contains_self (nm : String) (l : List String) :
    (insertName nm l).contains nm = true := by
  unfold insertName
  split
  · assumption
  · simp [List.contains_cons]

mutual

/-- Once a name is in a pass instance's writable set, visiting any further
node keeps it there: `_writable` only ever grows. -/
theorem visit_writable_mono : ∀ (n : Node) (s : CFState) (r : Variable × CFState),
    visit n s = some r → ∀ x, s.writable.contains x = true →
      r.2.writable.contains x = true
  | .indexedTensor t idx e, s, r, h, x, hx => by
      simp only [visit] at h
      cases h
      exact hx
  | .add cs e, s, r, h, x, hx => by
      simp only [visit] at h
      cases hcs : visitList cs s with
      | none => rw [hcs] at h; cases h
      | some p =>
        obtain ⟨vs, s1⟩ := p
        rw [hcs] at h
        simp only [Option.bind_eq_bind, Option.some_bind] at h
        split at h
        · cases h
        · cases h
          simpa [foldlPush_writable, nextTemporary] using
            visitList_writable_mono cs s (vs, s1) hcs x hx
  | .scalarMul sc t e, s, r, h, x, hx => by
      simp only [visit] at h
      cases hv : visit t s with
      | none => rw [hv] at h; cases h
      | some p =>
        obtain ⟨v, s1⟩ := p
        rw [hv] at h
        simp only [Option.bind_eq_bind, Option.some_bind] at h
        cases h
        simpa [pushAction, nextTemporary] using
          visit_writable_mono t s (v, s1) hv x hx
  | .assign l rr e, s, r, h, x, hx => by
      simp only [visit] at h
      cases hn : nodeName l with
      | none => rw [hn] at h; cases h
      | some nm =>
        rw [hn] at h
        simp only [Option.bind_eq_bind, Option.some_bind] at h
        cases hl : visit l { s with writable := insertName nm s.writable } with
        | none => rw [hl] at h; cases h
        | some p1 =>
          obtain ⟨vl, s1⟩ := p1
          rw [hl] at h
          simp only [Option.bind_eq_bind, Option.some_bind] at h
          cases hr : visit rr s1 with
          | none => rw [hr] at h; cases h
          | some p2 =>
            obtain ⟨vr, s2⟩ := p2
            rw [hr] at h
            simp only [Option.bind_eq_bind, Option.some_bind] at h
            cases h
            have hx0 : (insertName nm s.writable).contains x = true :=
              insertName_contains_mono nm x s.writable hx
            have hx1 := visit_writable_mono l _ (vl, s1) hl x hx0
            have hx2 := visit_writable_mono rr s1 (vr, s2) hr x hx1
            simpa [pushAction] using hx2
  | .einsum cs e, s, r, h, x, hx => by
      simp only [visit] at h
      cases hcs : visitList cs s with
      | none => rw [hcs] at h; cases h
      | some p =>
        obtain ⟨vs, s1⟩ := p
        rw [hcs] at h
        simp only [Option.bind_eq_bind, Option.some_bind] at h
        cases h
        simpa [pushAction, nextTemporary] using
          visitList_writable_mono cs s (vs, s1) hcs x hx
  | .product l rr e, s, r, h, x, hx => by
      simp only [visit] at h
      cases hl : visit l s with
      | none => rw [hl] at h; cases h
      | some p1 =>
        obtain ⟨vl, s1⟩ := p1
        rw [hl] at h
        simp only [Option.bind_eq_bind, Option.some_bind] at h
        cases hr : visit rr s1 with
        | none => rw [hr] at h; cases h
        | some p2 =>
          obtain ⟨vr, s2⟩ := p2
          rw [hr] at h
          simp only [Option.bind_eq_bind, Option.some_bind] at h
          cases h
          have hx1 := visit_writable_mono l s (vl, s1) hl x hx
          have hx2 := visit_writable_mono rr s1 (vr, s2) hr x hx1
          simpa [pushAction, nextTemporary] using hx2

/-- List version of `visit_writable_mono`. -/
theorem visitList_writable_mono : ∀ (l : List Node) (s : CFState)
    (r : List Variable × CFState), visitList l s = some r →
    ∀ x, s.writable.contains x = true → r.2.writable.contains x = true
  | [], s, r, h, x, hx => by
      simp only [visitList] at h
      cases h
      exact hx
  | c :: cs, s, r, h, x, hx => by
      simp only [visitList] at h
      cases hc : visit c s with
      | none => rw [hc] at h; cases h
      | some p1 =>
        obtain ⟨v, s1⟩ := p1
        rw [hc] at h
        simp only [Option.bind_eq_bind, Option.some_bind] at h
        cases hcs : visitList cs s1 with
        | none => rw [hcs] at h; cases h
        | some p2 =>
          obtain ⟨vs, s2⟩ := p2
          rw [hcs] at h
          simp only [Option.bind_eq_bind, Option.some_bind] at h
          cases h
          exact visitList_writable_mono cs s1 (vs, s2) hcs x
            (visit_writable_mono c s (v, s1) hc x hx)

end

/-- C5: lowering an `Assign` with an `IndexedTensor` left child registers the
left tensor's name in the writable set before any child — in particular the
right side — is visited: the right side is evaluated in the state whose
writable set has the name inserted (and the name is a member of that set), and
the produced left Variable is already writable; an `IndexedTensor` lowers to a
Variable writable exactly when its tensor's name is in the current writable
set; and the writable set only ever grows, so the registration persists for
everything visited later by the same pass instance. -/
theorem thmC5 :
    (∀ (t : Tensor) (idx : List String) (e1 : Option Spp) (r : Node)
        (e2 : Option Spp) (s : CFState),
      (insertName t.name s.writable).contains t.name = true ∧
      visit (.assign (.indexedTensor t idx e1) r e2) s =
        (visit r { s with writable := insertName t.name s.writable }).map
          (fun p => ((⟨t.name, true, some t, e1⟩ : Variable),
            pushAction ⟨⟨t.name, true, some t, e1⟩, .var p.1, false, none⟩ p.2))) ∧
    (∀ (t : Tensor) (idx : List String) (e : Option Spp) (s : CFState),
      visit (.indexedTensor t idx e) s =
        some (⟨t.name, s.writable.contains t.name, some t, e⟩, s)) ∧
    (∀ (n : Node) (s : CFState) (r : Variable × CFState), visit n s = some r →
      ∀ x, s.writable.contains x = true → r.2.writable.contains x = true) := by
  refine ⟨?_, ?_, visit_writable_mono⟩
  · intro t idx e1 r e2 s
    refine ⟨insertName_contains_self t.name s.writable, ?_⟩
    simp only [visit, nodeName, Option.bind_eq_bind, Option.some_bind,
      insertName_contains_self]
    cases hr : visit r { s with writable := insertName t.name s.writable } with
    | none => simp
    | some p => simp
  · intro t idx e s
    simp only [visit]

/-- The sort key only takes the values 0, 1 and 2. -/
theorem addSortKey_le_two (v : Variable) : addSortKey v ≤ 2 := by
  unfold addSortKey
  split <;> split <;> omega

/-- The stable key sort is a permutation of its input. -/
theorem sortVariables_perm (vs : List Variable) : (sortVariables vs).Perm vs := by
  induction vs with
  | nil => simp [sortVariables]
  | cons v vs ih =>
    have h2 := addSortKey_le_two v
    have hcase : addSortKey v = 0 ∨ addSortKey v = 1 ∨ addSortKey v = 2 := by omega
    unfold sortVariables at ih ⊢
    rcases hcase with hk | hk | hk
    · simp only [List.filter_cons, hk]
      simp only [List.append_assoc] at ih ⊢
      simp
      exact ih
    · simp only [List.filter_cons, hk]
      simp only [List.append_assoc] at ih ⊢
      simp
      exact List.Perm.trans List.perm_middle (ih.cons v)
    · simp only [List.filter_cons, hk]
      simp only [List.append_assoc] at ih ⊢
      simp
      exact List.Perm.trans
        ((List.perm_middle.append_left _).trans List.perm_middle) (ih.cons v)

/-- Every member of the key-`i` class has key `i`. -/
theorem mem_filter_key {vs : List Variable} {i : Nat} {v : Variable}
    (h : v ∈ vs.filter (fun v => addSortKey v == i)) : addSortKey v = i := by
  have := List.of_mem_filter h
  simpa using this

/-- The stable key sort is sorted by ascending key. -/
theorem sortVariables_sorted (vs : List Variable) :
    List.Sorted (fun a b => addSortKey a ≤ addSortKey b) (sortVariables vs) := by
  have hclass : ∀ (i : Nat), (vs.filter (fun v => addSortKey v == i)).Pairwise
      (fun a b => addSortKey a ≤ addSortKey b) := by
    intro i
    refine List.pairwise_of_forall_mem_list ?_
    intro a ha b hb
    have h1 := mem_filter_key ha
    have h2 := mem_filter_key hb
    omega
  unfold sortVariables List.Sorted
  rw [List.append_assoc, List.pairwise_append, List.pairwise_append]
  refine ⟨hclass 0, ⟨hclass 1, hclass 2, ?_⟩, ?_⟩
  · intro a ha b hb
    have h1 := mem_filter_key ha
    have h2 := mem_filter_key hb
    omega
  · intro a ha b hb
    have h1 := mem_filter_key ha
    rcases List.mem_append.mp hb with hb2 | hb2
    · have h2 := mem_filter_key hb2
      omega
    · have h2 := mem_filter_key hb2
      omega

/-- Composition of two key-class filters: the same class again is the
identity, different classes give the empty list. -/
theorem filter_key_filter_key (l : List Variable) (i j : Nat) :
    (l.filter (fun v => addSortKey v == j)).filter (fun v => addSortKey v == i) =
      if i = j then l.filter (fun v => addSortKey v == i) else [] := by
  by_cases h : i = j
  · subst h
    rw [if_pos rfl, List.filter_filter]
    apply List.filter_congr
    intro a ha
    cases hk : (addSortKey a == i) <;> simp [hk]
  · rw [if_neg h, List.filter_filter]
    apply List.filter_eq_nil_iff.mpr
    intro a ha
    simp only [Bool.and_eq_true, beq_iff_eq]
    rintro ⟨h1, h2⟩
    exact h (h1.symm.trans h2)

/-- Stability of the key sort: each key class comes out exactly in its
original order. -/
theorem sortVariables_filter (vs : List Variable) (i : Nat) :
    (sortVariables vs).filter (fun v => addSortKey v == i) =
      vs.filter (fun v => addSortKey v == i) := by
  unfold sortVariables
  simp only [List.filter_append, filter_key_filter_key]
  by_cases h0 : i = 0
  · subst h0; simp
  by_cases h1 : i = 1
  · subst h1; simp
  by_cases h2 : i = 2
  · subst h2; simp
  simp only [if_neg h0, if_neg h1, if_neg h2, List.append_nil, List.nil_append]
  symm
  apply List.filter_eq_nil_iff.mpr
  intro a ha
  have := addSortKey_le_two a
  simp only [beq_iff_eq]
  omega

/-- The results of the `visit_Add` accumulation loop: every action writes the
one temporary. -/
theorem accumActions_results (tmp : Variable) (vs : List Variable) (b : Bool) :
    (accumActions tmp vs b).map (fun a => a.result) = List.replicate vs.length tmp := by
  induction vs generalizing b with
  | nil => rfl
  | cons v vs ih => simp [accumActions, ih, List.replicate_succ]

/-- The terms of the `visit_Add` accumulation loop: one plain-copy term per
operand, in loop order. -/
theorem accumActions_terms (tmp : Variable) (vs : List Variable) (b : Bool) :
    (accumActions tmp vs b).map (fun a => a.term) = vs.map Term.var := by
  induction vs generalizing b with
  | nil => rfl
  | cons v vs ih => simp [accumActions, ih]

/-- Once the flag has flipped, every remaining action accumulates. -/
theorem accumActions_adds_true (tmp : Variable) (vs : List Variable) :
    (accumActions tmp vs true).map (fun a => a.add) = List.replicate vs.length true := by
  induction vs with
  | nil => rfl
  | cons v vs ih => simp [accumActions, ih, List.replicate_succ]

/-- The accumulate flags of the `visit_Add` loop: the first action assigns,
all others accumulate. -/
theorem accumActions_adds_false (tmp : Variable) (vs : List Variable) (h : vs ≠ []) :
    (accumActions tmp vs false).map (fun a => a.add) =
      false :: List.replicate (vs.length - 1) true := by
  cases vs with
  | nil => exact absurd rfl h
  | cons v vs => simp [accumActions, accumActions_adds_true]

/-- Folding action appends equals appending to the cfg. -/
theorem foldlPush_eq (as : List ProgramAction) (s : CFState) :
    as.foldl (fun st a => pushAction a st) s = { s with cfg := s.cfg ++ as } := by
  induction as generalizing s with
  | nil => simp
  | cons a as ih =>
    rw [List.foldl_cons, ih]
    simp [pushAction, List.append_assoc]

/-- C5 (witness): starting from a state where `C` is already registered,
visiting `D[ij]` returns a non-writable global Variable and keeps `C`
registered. -/
theorem thmC5_witness :
    visit sampleD ⟨0, ["C"], []⟩ =
      some (⟨"D", false, some ⟨"D"⟩, none⟩, ⟨0, ["C"], []⟩) ∧
    ((⟨"D", false, some ⟨"D"⟩, none⟩ : Variable),
      (⟨0, ["C"], []⟩ : CFState)).2.writable.contains "C" = true :=
  ⟨rfl, thmC5.2.2 sampleD ⟨0, ["C"], []⟩
    (⟨"D", false, some ⟨"D"⟩, none⟩, ⟨0, ["C"], []⟩) rfl "C" rfl⟩

/-- C2 (amended): lowering an `Add` whose children evaluate to the Variables
`vs` (more than one) emits exactly one action per operand into one fresh
temporary — the first with `add = false`, all others with `add = true` — after
stably reordering the operands by ascending combined score
`(not writable) + (not global)`: an operand that is both writable and global
sorts first, operands with exactly one of the two properties tie and keep
their original relative order, and operands with neither sort last.  The
reordering is a permutation, sorted by the score, and preserves the original
order inside every score class. -/
theorem thmC2 (cs : List Node) (e : Option Spp) (s : CFState)
    (vs : List Variable) (s1 : CFState)
    (h : visitList cs s = some (vs, s1)) (hlen : 1 < vs.length) :
    visit (.add cs e) s =
      some (⟨"_tmp" ++ toString s1.tmp, true, none, e⟩,
        { tmp := s1.tmp + 1, writable := s1.writable,
          cfg := s1.cfg ++ accumActions ⟨"_tmp" ++ toString s1.tmp, true, none, e⟩
            (sortVariables vs) false }) ∧
    (sortVariables vs).Perm vs ∧
    List.Sorted (fun a b => addSortKey a ≤ addSortKey b) (sortVariables vs) ∧
    (∀ i, (sortVariables vs).filter (fun v => addSortKey v == i) =
      vs.filter (fun v => addSortKey v == i)) ∧
    (accumActions ⟨"_tmp" ++ toString s1.tmp, true, none, e⟩ (sortVariables vs) false).map
        (fun a => a.result) =
      List.replicate vs.length ⟨"_tmp" ++ toString s1.tmp, true, none, e⟩ ∧
    (accumActions ⟨"_tmp" ++ toString s1.tmp, true, none, e⟩ (sortVariables vs) false).map
        (fun a => a.term) = (sortVariables vs).map Term.var ∧
    (accumActions ⟨"_tmp" ++ toString s1.tmp, true, none, e⟩ (sortVariables vs) false).map
        (fun a => a.add) = false :: List.replicate (vs.length - 1) true := by
  have hnil : sortVariables vs ≠ [] := by
    intro hn
    have := (sortVariables_perm vs).length_eq
    rw [hn] at this
    simp at this
    omega
  refine ⟨?_, sortVariables_perm vs, sortVariables_sorted vs, sortVariables_filter vs,
    ?_, accumActions_terms _ _ _, ?_⟩
  · simp only [visit, h, Option.bind_eq_bind, Option.some_bind]
    rw [if_neg (by omega)]
    rw [foldlPush_eq]
    rfl
  · rw [accumActions_results, (sortVariables_perm vs).length_eq]
  · rw [accumActions_adds_false _ _ hnil, (sortVariables_perm vs).length_eq]

/-- C2 (witness): the amended claim at the lowering of
`D[ij] + A[ik]*B[kj]` from a fresh pass instance. -/
theorem thmC2_witness :
    visit (.add [sampleD, .product sampleA sampleB none] none) initialCFState =
      some (⟨"_tmp1", true, none, none⟩,
        { tmp := 2, writable := [],
          cfg := [⟨⟨"_tmp0", true, none, none⟩,
              .expr (.product sampleA sampleB none)
                [⟨"A", false, some ⟨"A"⟩, none⟩, ⟨"B", false, some ⟨"B"⟩, none⟩],
              false, none⟩] ++
            accumActions ⟨"_tmp1", true, none, none⟩
              (sortVariables [⟨"D", false, some ⟨"D"⟩, none⟩, ⟨"_tmp0", true, none, none⟩])
              false }) :=
  (thmC2 [sampleD, .product sampleA sampleB none] none initialCFState
    [⟨"D", false, some ⟨"D"⟩, none⟩, ⟨"_tmp0", true, none, none⟩]
    ⟨1, [], [⟨⟨"_tmp0", true, none, none⟩,
      .expr (.product sampleA sampleB none)
        [⟨"A", false, some ⟨"A"⟩, none⟩, ⟨"B", false, some ⟨"B"⟩, none⟩],
      false, none⟩]⟩ rfl (by decide)).1

/-- C2 (counterexample): lowering `D[ij] + A[ik]*B[kj]` evaluates the `Add`
operands to the global non-writable `D` followed by the writable local
temporary `_tmp0`; the emitted actions consume `D` first and `_tmp0` second,
while a stable reorder preferring already-writable operands first and then
already-global operands first (the claim's rule, `specLexSortVariables`) would
put `_tmp0` before `D` — so the claimed reordering rule does not describe the
code. -/
theorem thmC2_counterexample :
    (visit (.add [sampleD, .product sampleA sampleB none] none) initialCFState).map
        (fun p => (p.2.cfg.drop 1).map (fun a => a.term.source)) =
      some [some ⟨"D", false, some ⟨"D"⟩, none⟩, some ⟨"_tmp0", true, none, none⟩] ∧
    (specLexSortVariables
        [⟨"D", false, some ⟨"D"⟩, none⟩, ⟨"_tmp0", true, none, none⟩]).map
        (fun v => (some v : Option Variable)) =
      [some ⟨"_tmp0", true, none, none⟩, some ⟨"D", false, some ⟨"D"⟩, none⟩] ∧
    [some (⟨"D", false, some ⟨"D"⟩, none⟩ : Variable), some ⟨"_tmp0", true, none, none⟩] ≠
      [some (⟨"_tmp0", true, none, none⟩ : Variable), some ⟨"D", false, some ⟨"D"⟩, none⟩] :=
  ⟨rfl, rfl, by decide⟩

end Yateto
